import Mathlib

/-!
Verification of the annual-payment mortgage amortization engine
(`computeMortgage` in `src/modules/calculations.js`).

The engine is a pure function of three scalar inputs. All monetary
quantities in the source are IEEE floats; the spec states they model real
numbers with no internal rounding, so the embedding uses exact rational
arithmetic (`ℚ`). JavaScript `Math.round` on the term is `⌊x + 1/2⌋`,
embedded as `jsRound`. The JS `for (let y = 1; y <= n; y++)` loops are
embedded as structural recursion on the number of remaining iterations
(`fuel`), threading the balance exactly as the source does. The running
sums `totalInterest`/`totalPrincipal` of the positive-rate branch add the
same row fields in loop order starting from 0; over exact rationals this
equals the sum of the emitted `interest`/`principal` fields, which is how
the totals are written here. The `Math.pow(1 + r, n)` exponent and the
loop bound use the rounded term; for the valid domain (rounded term ≥ 1)
the embedding's `ℕ` exponent coincides with the source's.
-/

namespace Mortgage

/-- JavaScript `Math.round`: `⌊x + 1/2⌋` (round half up; equals
round-half-away-from-zero on nonnegative inputs). -/
def jsRound (x : ℚ) : ℤ := ⌊x + 1 / 2⌋

/-- One row of the amortization schedule, with the fields the source
pushes: `{ year, payment, interest, principal, endingBalance }`. -/
structure ScheduleRow where
  year : ℕ
  payment : ℚ
  interest : ℚ
  principal : ℚ
  endingBalance : ℚ
  deriving Repr, DecidableEq, Inhabited

/-- The `totals` object: `{ payment, interest, principal }`. -/
structure Totals where
  payment : ℚ
  interest : ℚ
  principal : ℚ
  deriving Repr, DecidableEq

/-- The full return value `{ payment, schedule, totals }`. -/
structure MortgageResult where
  payment : ℚ
  schedule : List ScheduleRow
  totals : Totals
  deriving Repr, DecidableEq

/-- The zero-rate branch loop: for each remaining iteration, emit a row
with `principal = (y == n ? bal : payment)`, `interest = 0`,
`bal = max 0 (bal - principal)`. `fuel` is the number of iterations left,
`y` the current year. -/
def zeroRows (payment : ℚ) (n : ℕ) : ℕ → ℕ → ℚ → List ScheduleRow
  | _, 0, _ => []
  | y, fuel + 1, bal =>
    let principal := if y = n then bal else payment
    let interest : ℚ := 0
    let bal2 := max 0 (bal - principal)
    { year := y, payment := payment, interest := interest,
      principal := principal, endingBalance := bal2 } ::
      zeroRows payment n (y + 1) fuel bal2

/-- The positive-rate branch loop: `interest = bal * r`,
`principal = payment - interest` overridden to `bal` in the final year,
`bal = max 0 (bal - principal)`. -/
def posRows (payment r : ℚ) (n : ℕ) : ℕ → ℕ → ℚ → List ScheduleRow
  | _, 0, _ => []
  | y, fuel + 1, bal =>
    let interest := bal * r
    let principal := if y = n then bal else payment - interest
    let bal2 := max 0 (bal - principal)
    { year := y, payment := payment, interest := interest,
      principal := principal, endingBalance := bal2 } ::
      posRows payment r n (y + 1) fuel bal2

/-- Sum of the `interest` fields of a list of rows. -/
def sumInterest (rows : List ScheduleRow) : ℚ :=
  (rows.map ScheduleRow.interest).sum

/-- Sum of the `principal` fields of a list of rows. -/
def sumPrincipal (rows : List ScheduleRow) : ℚ :=
  (rows.map ScheduleRow.principal).sum

/-- `computeMortgage({ loanAmount, annualRate, years })` from
`src/modules/calculations.js`. `r = annualRate / 100`,
`n = Math.round(years)`; the zero-rate branch divides the principal
evenly, the positive-rate branch uses
`payment = P * (r * (1+r)^n) / ((1+r)^n - 1)`; the positive-rate totals
accumulate the per-row interest and principal. -/
def computeMortgage (loanAmount annualRate years : ℚ) : MortgageResult :=
  let P := loanAmount
  let r := annualRate / 100
  let n : ℕ := (jsRound years).toNat
  let nq : ℚ := ((jsRound years : ℤ) : ℚ)
  if r = 0 then
    let payment := P / nq
    let schedule := zeroRows payment n 1 n P
    { payment := payment
      schedule := schedule
      totals := { payment := payment * nq, interest := 0, principal := P } }
  else
    let payment := P * (r * (1 + r) ^ n) / ((1 + r) ^ n - 1)
    let schedule := posRows payment r n 1 n P
    { payment := payment
      schedule := schedule
      totals := { payment := payment * nq
                  interest := sumInterest schedule
                  principal := sumPrincipal schedule } }

/-- `Math.round` agrees with the integer itself on integer inputs. -/
lemma jsRound_natCast (n : ℕ) : jsRound (n : ℚ) = n := by
  rw [jsRound, Int.floor_eq_iff]
  constructor
  · push_cast; linarith
  · push_cast; linarith

lemma jsRound_eq_round (x : ℚ) : jsRound x = round x := (round_eq x).symm

/-- The level annual payment, exactly as the positive-rate branch
computes it: `P * (r * (1+r)^n) / ((1+r)^n - 1)`. -/
def annuityPayment (P r : ℚ) (n : ℕ) : ℚ :=
  P * (r * (1 + r) ^ n) / ((1 + r) ^ n - 1)

/-- Exact outstanding balance after `k` of the `n` years at rate `r`. -/
def balClosed (P r : ℚ) (n k : ℕ) : ℚ :=
  P * ((1 + r) ^ n - (1 + r) ^ k) / ((1 + r) ^ n - 1)

lemma denom_pos {r : ℚ} (hr : 0 < r) {n : ℕ} (hn : 1 ≤ n) :
    0 < (1 + r) ^ n - 1 := by
  have h1 : (1 : ℚ) < 1 + r := by linarith
  have := one_lt_pow₀ h1 (Nat.one_le_iff_ne_zero.mp hn)
  linarith

lemma balClosed_zero {P r : ℚ} (hr : 0 < r) {n : ℕ} (hn : 1 ≤ n) :
    balClosed P r n 0 = P := by
  have hd := denom_pos hr hn
  rw [balClosed, pow_zero, mul_div_assoc, div_self hd.ne', mul_one]

lemma balClosed_last (P r : ℚ) (n : ℕ) : balClosed P r n n = 0 := by
  simp [balClosed]

lemma balClosed_nonneg {P r : ℚ} (hP : 0 ≤ P) (hr : 0 < r) {n k : ℕ}
    (hn : 1 ≤ n) (hk : k ≤ n) : 0 ≤ balClosed P r n k := by
  have hd := denom_pos hr hn
  have hpow : (1 + r) ^ k ≤ (1 + r) ^ n := pow_le_pow_right₀ (by linarith) hk
  exact div_nonneg (mul_nonneg hP (by linarith)) hd.le

lemma balClosed_succ_le {P r : ℚ} (hP : 0 ≤ P) (hr : 0 < r) {n : ℕ}
    (hn : 1 ≤ n) (k : ℕ) : balClosed P r n (k + 1) ≤ balClosed P r n k := by
  have hd := denom_pos hr hn
  have hpow : (1 + r) ^ k ≤ (1 + r) ^ (k + 1) :=
    pow_le_pow_right₀ (by linarith) (Nat.le_succ k)
  have hnum : P * ((1 + r) ^ n - (1 + r) ^ (k + 1)) ≤
      P * ((1 + r) ^ n - (1 + r) ^ k) :=
    mul_le_mul_of_nonneg_left (by linarith) hP
  exact div_le_div_of_nonneg_right hnum hd.le

/-- One step of the balance recursion: paying `annuityPayment` out of
`balClosed k` after interest accrues leaves `balClosed (k+1)`. -/
lemma balClosed_step {P r : ℚ} (hr : 0 < r) {n : ℕ} (hn : 1 ≤ n) (k : ℕ) :
    balClosed P r n k - (annuityPayment P r n - balClosed P r n k * r) =
      balClosed P r n (k + 1) := by
  have hd := denom_pos hr hn
  rw [balClosed, balClosed, annuityPayment]
  field_simp
  ring

/-- In the final year the pre-clamp balance grown by one period of
interest is exactly the annual payment. -/
lemma balClosed_final_pay {P r : ℚ} (hr : 0 < r) {n : ℕ} (hn : 1 ≤ n) :
    balClosed P r n (n - 1) * (1 + r) = annuityPayment P r n := by
  have h := balClosed_step (P := P) hr hn (n - 1)
  rw [Nat.sub_add_cancel hn, balClosed_last] at h
  ring_nf at h ⊢
  linarith

/-- The row the positive-rate loop emits for year `j + 1`, in closed
form. -/
def rowC (P r : ℚ) (n j : ℕ) : ScheduleRow :=
  { year := j + 1
    payment := annuityPayment P r n
    interest := balClosed P r n j * r
    principal := if j + 1 = n then balClosed P r n j
                 else annuityPayment P r n - balClosed P r n j * r
    endingBalance := balClosed P r n (j + 1) }

lemma posRows_closed {P r : ℚ} (hP : 0 ≤ P) (hr : 0 < r) {n : ℕ}
    (hn : 1 ≤ n) : ∀ fuel k, k + 1 + fuel = n + 1 →
    posRows (annuityPayment P r n) r n (k + 1) fuel (balClosed P r n k) =
      (List.range fuel).map (fun i => rowC P r n (k + i)) := by
  intro fuel
  induction fuel with
  | zero => intro k hk; simp [posRows]
  | succ f ih =>
    intro k hk
    rw [List.range_succ_eq_map, List.map_cons, List.map_map]
    by_cases hkn : k + 1 = n
    · have hf : f = 0 := by omega
      subst hf
      simp only [posRows, if_pos hkn, sub_self, max_self, List.map_nil]
      simp [rowC, hkn, balClosed_last, max_eq_right (le_refl (0 : ℚ))]
    · have hk1 : k + 1 ≤ n := by omega
      have hbal2 : max 0 (balClosed P r n k -
          (annuityPayment P r n - balClosed P r n k * r)) =
          balClosed P r n (k + 1) := by
        rw [balClosed_step hr hn k]
        exact max_eq_right (balClosed_nonneg hP hr hn (by omega))
      simp only [posRows, if_neg hkn]
      rw [hbal2]
      have htail := ih (k + 1) (by omega)
      rw [htail]
      have hfun : ((fun i => rowC P r n (k + i)) ∘ Nat.succ) =
          fun i => rowC P r n (k + 1 + i) := by
        funext i
        simp only [Function.comp]
        congr 1
        omega
      rw [hfun]
      simp [rowC, hkn]

/-- The positive-rate schedule in closed form. -/
lemma schedule_pos_closed {P r : ℚ} (hP : 0 ≤ P) (hr : 0 < r) {n : ℕ}
    (hn : 1 ≤ n) :
    posRows (annuityPayment P r n) r n 1 n P =
      (List.range n).map (rowC P r n) := by
  have h := posRows_closed hP hr hn n 0 (by omega)
  rw [balClosed_zero hr hn] at h
  simpa using h

/-- The row the zero-rate loop emits for year `j + 1`, in closed form: the
balance before year `j + 1` is `P - j * (P / n)`. -/
def zrowC (P : ℚ) (n j : ℕ) : ScheduleRow :=
  { year := j + 1
    payment := P / (n : ℚ)
    interest := 0
    principal := if j + 1 = n then P - (j : ℚ) * (P / (n : ℚ))
                 else P / (n : ℚ)
    endingBalance := P - ((j : ℚ) + 1) * (P / (n : ℚ)) }

lemma zbal_nonneg {P : ℚ} (hP : 0 ≤ P) {n j : ℕ} (hn : 1 ≤ n) (hj : j ≤ n) :
    0 ≤ P - (j : ℚ) * (P / (n : ℚ)) := by
  have hn0 : (0 : ℚ) < (n : ℚ) := by exact_mod_cast hn
  have hj' : (j : ℚ) ≤ (n : ℚ) := by exact_mod_cast hj
  have hrw : P - (j : ℚ) * (P / (n : ℚ)) = P * (((n : ℚ) - j) / (n : ℚ)) := by
    field_simp
    ring
  rw [hrw]
  exact mul_nonneg hP (div_nonneg (by linarith) hn0.le)

lemma zeroRows_closed {P : ℚ} (hP : 0 ≤ P) {n : ℕ} (hn : 1 ≤ n) :
    ∀ fuel k, k + 1 + fuel = n + 1 →
    zeroRows (P / (n : ℚ)) n (k + 1) fuel (P - (k : ℚ) * (P / (n : ℚ))) =
      (List.range fuel).map (fun i => zrowC P n (k + i)) := by
  have hn0 : ((n : ℚ)) ≠ 0 := by
    exact_mod_cast Nat.one_le_iff_ne_zero.mp hn
  intro fuel
  induction fuel with
  | zero => intro k hk; simp [zeroRows]
  | succ f ih =>
    intro k hk
    rw [List.range_succ_eq_map, List.map_cons, List.map_map]
    by_cases hkn : k + 1 = n
    · have hf : f = 0 := by omega
      subst hf
      simp only [zeroRows, if_pos hkn, sub_self, max_self, List.map_nil]
      have hend : P - ((k : ℚ) + 1) * (P / (n : ℚ)) = 0 := by
        have : ((k : ℚ) + 1) = (n : ℚ) := by exact_mod_cast hkn
        rw [this, mul_div_cancel₀ P hn0, sub_self]
      simp [zrowC, hkn, hend, max_eq_right (le_refl (0 : ℚ))]
    · have hbal2 : max 0 (P - (k : ℚ) * (P / (n : ℚ)) - P / (n : ℚ)) =
          P - ((k : ℚ) + 1) * (P / (n : ℚ)) := by
        have h1 : P - (k : ℚ) * (P / (n : ℚ)) - P / (n : ℚ) =
            P - ((k : ℚ) + 1) * (P / (n : ℚ)) := by ring
        rw [h1]
        refine max_eq_right ?_
        have := zbal_nonneg hP hn (j := k + 1) (by omega)
        push_cast at this
        linarith
      simp only [zeroRows, if_neg hkn]
      rw [hbal2]
      have hcast : P - ((k : ℚ) + 1) * (P / (n : ℚ)) =
          P - ((k + 1 : ℕ) : ℚ) * (P / (n : ℚ)) := by push_cast; ring
      rw [hcast, ih (k + 1) (by omega)]
      have hfun : ((fun i => zrowC P n (k + i)) ∘ Nat.succ) =
          fun i => zrowC P n (k + 1 + i) := by
        funext i
        simp only [Function.comp]
        congr 1
        omega
      rw [hfun]
      simp [zrowC, hkn]

/-- The zero-rate schedule in closed form. -/
lemma schedule_zero_closed {P : ℚ} (hP : 0 ≤ P) {n : ℕ} (hn : 1 ≤ n) :
    zeroRows (P / (n : ℚ)) n 1 n P = (List.range n).map (zrowC P n) := by
  have h := zeroRows_closed hP hn n 0 (by omega)
  simpa using h

lemma posRows_length (payment r : ℚ) (n : ℕ) :
    ∀ fuel y bal, (posRows payment r n y fuel bal).length = fuel := by
  intro fuel
  induction fuel with
  | zero => intro y bal; simp [posRows]
  | succ f ih => intro y bal; simp [posRows, ih]

lemma zeroRows_length (payment : ℚ) (n : ℕ) :
    ∀ fuel y bal, (zeroRows payment n y fuel bal).length = fuel := by
  intro fuel
  induction fuel with
  | zero => intro y bal; simp [zeroRows]
  | succ f ih => intro y bal; simp [zeroRows, ih]

lemma posRows_year (payment r : ℚ) (n : ℕ) :
    ∀ fuel y bal i (hi : i < (posRows payment r n y fuel bal).length),
      ((posRows payment r n y fuel bal).get ⟨i, hi⟩).year = y + i := by
  intro fuel
  induction fuel with
  | zero => intro y bal i hi; rw [posRows_length] at hi; omega
  | succ f ih =>
    intro y bal i hi
    match i with
    | 0 => simp [posRows]
    | i + 1 =>
      rw [posRows_length] at hi
      have hi2 : i < (posRows payment r n (y + 1) f
          (max 0 (bal - if y = n then bal else payment - bal * r))).length := by
        rw [posRows_length]; omega
      have hrec := ih (y + 1)
        (max 0 (bal - if y = n then bal else payment - bal * r)) i hi2
      simp only [posRows, List.get_cons_succ]
      rw [hrec]
      omega

lemma zeroRows_year (payment : ℚ) (n : ℕ) :
    ∀ fuel y bal i (hi : i < (zeroRows payment n y fuel bal).length),
      ((zeroRows payment n y fuel bal).get ⟨i, hi⟩).year = y + i := by
  intro fuel
  induction fuel with
  | zero => intro y bal i hi; rw [zeroRows_length] at hi; omega
  | succ f ih =>
    intro y bal i hi
    match i with
    | 0 => simp [zeroRows]
    | i + 1 =>
      rw [zeroRows_length] at hi
      have hi2 : i < (zeroRows payment n (y + 1) f
          (max 0 (bal - if y = n then bal else payment))).length := by
        rw [zeroRows_length]; omega
      have hrec := ih (y + 1)
        (max 0 (bal - if y = n then bal else payment)) i hi2
      simp only [zeroRows, List.get_cons_succ]
      rw [hrec]
      omega

/-- The schedule component of `computeMortgage`. -/
def scheduleOf (P rate years : ℚ) : List ScheduleRow :=
  (computeMortgage P rate years).schedule

/-- Balance outstanding before year `j + 1` of a schedule: the previous
row's `endingBalance`, or the loan amount for the first year. -/
def balBefore (P : ℚ) (s : List ScheduleRow) (j : ℕ) : ℚ :=
  if j = 0 then P else (s.getD (j - 1) default).endingBalance

lemma rate_div_eq_zero_iff (rate : ℚ) : rate / 100 = 0 ↔ rate = 0 := by
  constructor
  · intro h
    rcases div_eq_zero_iff.mp h with h | h
    · exact h
    · norm_num at h
  · intro h
    rw [h, zero_div]

/-- `computeMortgage` at rate 0 and an integer term, fully unfolded. -/
lemma computeMortgage_zero_eq (P : ℚ) (n : ℕ) :
    computeMortgage P 0 (n : ℚ) =
      { payment := P / (n : ℚ)
        schedule := zeroRows (P / (n : ℚ)) n 1 n P
        totals := { payment := P / (n : ℚ) * (n : ℚ)
                    interest := 0
                    principal := P } } := by
  simp [computeMortgage, jsRound_natCast]

/-- `computeMortgage` at a nonzero rate and an integer term, fully
unfolded. -/
lemma computeMortgage_pos_eq (P rate : ℚ) (n : ℕ) (hrate : rate ≠ 0) :
    computeMortgage P rate (n : ℚ) =
      { payment := annuityPayment P (rate / 100) n
        schedule := posRows (annuityPayment P (rate / 100) n) (rate / 100) n 1 n P
        totals := { payment := annuityPayment P (rate / 100) n * (n : ℚ)
                    interest := sumInterest
                      (posRows (annuityPayment P (rate / 100) n) (rate / 100) n 1 n P)
                    principal := sumPrincipal
                      (posRows (annuityPayment P (rate / 100) n) (rate / 100) n 1 n P) } } := by
  have h : ¬ rate / 100 = 0 := fun hc => hrate ((rate_div_eq_zero_iff rate).mp hc)
  simp [computeMortgage, jsRound_natCast, annuityPayment, h]

lemma get_map_range {α : Type} (f : ℕ → α) {n i : ℕ}
    (hi : i < ((List.range n).map f).length) :
    ((List.range n).map f).get ⟨i, hi⟩ = f i := by
  simp [List.get_eq_getElem]

lemma list_sum_range (f : ℕ → ℚ) (n : ℕ) :
    ((List.range n).map f).sum = ∑ i in Finset.range n, f i := by
  induction n with
  | zero => simp
  | succ m ih =>
    rw [List.range_succ, List.map_append, List.sum_append,
      Finset.sum_range_succ, ih]
    simp

/-- Every positive-rate row, the clamped final one included, satisfies
`interest + principal = annuityPayment` over exact arithmetic. -/
lemma rowC_interest_add_principal {P r : ℚ} (hr : 0 < r) {n : ℕ}
    (hn : 1 ≤ n) {j : ℕ} :
    (rowC P r n j).interest + (rowC P r n j).principal =
      annuityPayment P r n := by
  simp only [rowC]
  by_cases h : j + 1 = n
  · rw [if_pos h]
    have hj' : j = n - 1 := by omega
    rw [hj']
    have hexp : balClosed P r n (n - 1) * r + balClosed P r n (n - 1) =
        balClosed P r n (n - 1) * (1 + r) := by ring
    rw [hexp, balClosed_final_pay hr hn]
  · rw [if_neg h]
    ring

lemma sumIP_pos {P r : ℚ} (hr : 0 < r) {n : ℕ} (hn : 1 ≤ n) :
    sumInterest ((List.range n).map (rowC P r n)) +
      sumPrincipal ((List.range n).map (rowC P r n)) =
      annuityPayment P r n * (n : ℚ) := by
  rw [sumInterest, sumPrincipal, List.map_map, List.map_map,
    list_sum_range, list_sum_range, ← Finset.sum_add_distrib]
  have hcongr : ∀ j ∈ Finset.range n,
      (ScheduleRow.interest ∘ rowC P r n) j +
        (ScheduleRow.principal ∘ rowC P r n) j = annuityPayment P r n := by
    intro j _
    exact rowC_interest_add_principal hr hn
  rw [Finset.sum_congr rfl hcongr, Finset.sum_const, Finset.card_range,
    nsmul_eq_mul, mul_comm]

lemma sumPrincipal_pos {P r : ℚ} (hr : 0 < r) {n : ℕ} (hn : 1 ≤ n) :
    sumPrincipal ((List.range n).map (rowC P r n)) = P := by
  rw [sumPrincipal, List.map_map, list_sum_range]
  have hstep : ∀ j ∈ Finset.range n,
      (ScheduleRow.principal ∘ rowC P r n) j =
        balClosed P r n j - balClosed P r n (j + 1) := by
    intro j hj
    simp only [Function.comp, rowC]
    by_cases h : j + 1 = n
    · rw [if_pos h, h, balClosed_last, sub_zero]
    · rw [if_neg h]
      have := balClosed_step (P := P) hr hn j
      linarith
  rw [Finset.sum_congr rfl hstep, Finset.sum_range_sub' (balClosed P r n),
    balClosed_zero hr hn, balClosed_last, sub_zero]

lemma sumPrincipal_zero {P : ℚ} {n : ℕ} (hn : 1 ≤ n) :
    sumPrincipal ((List.range n).map (zrowC P n)) = P := by
  have hn0 : ((n : ℚ)) ≠ 0 := by
    exact_mod_cast Nat.one_le_iff_ne_zero.mp hn
  rw [sumPrincipal, List.map_map, list_sum_range]
  have hstep : ∀ j ∈ Finset.range n,
      (ScheduleRow.principal ∘ zrowC P n) j =
        (P - (j : ℚ) * (P / (n : ℚ))) -
          (P - ((j + 1 : ℕ) : ℚ) * (P / (n : ℚ))) := by
    intro j _
    simp only [Function.comp, zrowC]
    by_cases h : j + 1 = n
    · rw [if_pos h]
      have hcast : ((j + 1 : ℕ) : ℚ) = (n : ℚ) := by exact_mod_cast h
      have hmul : ((n : ℚ)) * (P / (n : ℚ)) = P := by field_simp
      rw [hcast, hmul]
      ring
    · rw [if_neg h]
      push_cast
      ring
  rw [Finset.sum_congr rfl hstep,
    Finset.sum_range_sub' (fun j : ℕ => P - (j : ℚ) * (P / (n : ℚ)))]
  have hmul : ((n : ℚ)) * (P / (n : ℚ)) = P := by field_simp
  simp [hmul]

lemma get_eq_of_eq_map {α : Type} {l : List α} {f : ℕ → α} {n : ℕ}
    (h : l = (List.range n).map f) (i : ℕ) (hi : i < l.length) :
    l.get ⟨i, hi⟩ = f i := by
  subst h
  exact get_map_range f hi

lemma payment_zero_eq (P : ℚ) (n : ℕ) :
    (computeMortgage P 0 ((n : ℕ) : ℚ)).payment = P / (n : ℚ) := by
  rw [computeMortgage_zero_eq P n]

lemma schedule_zeroBranch (P : ℚ) (n : ℕ) (hP : 0 ≤ P) (hn : 1 ≤ n) :
    (computeMortgage P 0 ((n : ℕ) : ℚ)).schedule =
      (List.range n).map (zrowC P n) := by
  rw [computeMortgage_zero_eq P n]
  exact schedule_zero_closed hP hn

lemma totals_zero_eq (P : ℚ) (n : ℕ) :
    (computeMortgage P 0 ((n : ℕ) : ℚ)).totals =
      { payment := P / (n : ℚ) * (n : ℚ), interest := 0, principal := P } := by
  rw [computeMortgage_zero_eq P n]

lemma payment_pos_eq (P rate : ℚ) (n : ℕ) (hrate : rate ≠ 0) :
    (computeMortgage P rate ((n : ℕ) : ℚ)).payment =
      annuityPayment P (rate / 100) n := by
  rw [computeMortgage_pos_eq P rate n hrate]

lemma schedule_posBranch (P rate : ℚ) (n : ℕ) (hP : 0 ≤ P)
    (hrate : 0 < rate) (hn : 1 ≤ n) :
    (computeMortgage P rate ((n : ℕ) : ℚ)).schedule =
      (List.range n).map (rowC P (rate / 100) n) := by
  rw [computeMortgage_pos_eq P rate n (ne_of_gt hrate)]
  exact schedule_pos_closed hP (by positivity) hn

lemma totals_pos_eq (P rate : ℚ) (n : ℕ) (hP : 0 ≤ P)
    (hrate : 0 < rate) (hn : 1 ≤ n) :
    (computeMortgage P rate ((n : ℕ) : ℚ)).totals =
      { payment := annuityPayment P (rate / 100) n * (n : ℚ)
        interest := sumInterest ((List.range n).map (rowC P (rate / 100) n))
        principal :=
          sumPrincipal ((List.range n).map (rowC P (rate / 100) n)) } := by
  rw [computeMortgage_pos_eq P rate n (ne_of_gt hrate),
    schedule_pos_closed hP (by positivity) hn]

/-- C1: with principal > 0, rate > 0 and an integer term n ≥ 1, the
returned annual payment is the closed-form annuity payment
`P * r * (1+r)^n / ((1+r)^n - 1)` with `r = annualRatePercent / 100`, and
every schedule row carries this same value in its `payment` field. -/
theorem C1_payment_formula (P rate : ℚ) (n : ℕ)
    (hP : 0 < P) (hrate : 0 < rate) (hn : 1 ≤ n) :
    (computeMortgage P rate ((n : ℕ) : ℚ)).payment =
      P * (rate / 100) * (1 + rate / 100) ^ n /
        ((1 + rate / 100) ^ n - 1) ∧
    ∀ row ∈ (computeMortgage P rate ((n : ℕ) : ℚ)).schedule,
      row.payment =
        P * (rate / 100) * (1 + rate / 100) ^ n /
          ((1 + rate / 100) ^ n - 1) := by
  have hform : annuityPayment P (rate / 100) n =
      P * (rate / 100) * (1 + rate / 100) ^ n /
        ((1 + rate / 100) ^ n - 1) := by
    rw [annuityPayment, mul_assoc]
  constructor
  · rw [payment_pos_eq P rate n (ne_of_gt hrate), hform]
  · intro row hrow
    rw [schedule_posBranch P rate n hP.le hrate hn] at hrow
    obtain ⟨j, _, rfl⟩ := List.mem_map.mp hrow
    rw [show (rowC P (rate / 100) n j).payment =
      annuityPayment P (rate / 100) n from rfl, hform]

theorem C1_payment_formula_witness :
    (0 : ℚ) < 1000 ∧ (0 : ℚ) < 5 ∧ (1 : ℕ) ≤ 2 ∧
    ((computeMortgage 1000 5 ((2 : ℕ) : ℚ)).payment =
      1000 * (5 / 100) * (1 + 5 / 100) ^ 2 / ((1 + 5 / 100) ^ 2 - 1) ∧
    ∀ row ∈ (computeMortgage 1000 5 ((2 : ℕ) : ℚ)).schedule,
      row.payment =
        1000 * (5 / 100) * (1 + 5 / 100) ^ 2 /
          ((1 + 5 / 100) ^ 2 - 1)) :=
  ⟨by norm_num, by norm_num, by norm_num,
    C1_payment_formula 1000 5 2 (by norm_num) (by norm_num) (by norm_num)⟩

/-- C2: with principal P > 0, rate exactly 0, and an integer term n ≥ 1,
the payment is P / n; each of the first n - 1 rows has interest 0 and
principal equal to the payment; the final row's principal equals the
exact remaining balance before it; totals are interest 0, principal P,
payment = annualPayment * n. In particular, for principal 120000, rate 0,
term 10 the payment is 12000, every row has interest 0 and principal
12000, the final ending balance is 0, and the totals are
(120000, 0, 120000). -/
theorem C2_zero_rate_branch (P : ℚ) (n : ℕ) (hP : 0 < P) (hn : 1 ≤ n) :
    (computeMortgage P 0 ((n : ℕ) : ℚ)).payment = P / (n : ℚ) ∧
    (∀ i, ∀ hi : i < (computeMortgage P 0 ((n : ℕ) : ℚ)).schedule.length,
      i < n - 1 →
      ((computeMortgage P 0 ((n : ℕ) : ℚ)).schedule.get ⟨i, hi⟩).interest =
        0 ∧
      ((computeMortgage P 0 ((n : ℕ) : ℚ)).schedule.get ⟨i, hi⟩).principal =
        P / (n : ℚ)) ∧
    (∀ hi : n - 1 < (computeMortgage P 0 ((n : ℕ) : ℚ)).schedule.length,
      ((computeMortgage P 0
          ((n : ℕ) : ℚ)).schedule.get ⟨n - 1, hi⟩).principal =
        P - ((n : ℚ) - 1) * (P / (n : ℚ))) ∧
    (computeMortgage P 0 ((n : ℕ) : ℚ)).totals =
      { payment := P / (n : ℚ) * (n : ℚ), interest := 0, principal := P } ∧
    (computeMortgage 120000 0 ((10 : ℕ) : ℚ)).payment = 12000 ∧
    (∀ row ∈ (computeMortgage 120000 0 ((10 : ℕ) : ℚ)).schedule,
      row.interest = 0 ∧ row.principal = 12000) ∧
    (∀ hi : 9 < (computeMortgage 120000 0 ((10 : ℕ) : ℚ)).schedule.length,
      ((computeMortgage 120000 0
          ((10 : ℕ) : ℚ)).schedule.get ⟨9, hi⟩).endingBalance = 0) ∧
    (computeMortgage 120000 0 ((10 : ℕ) : ℚ)).totals =
      { payment := 120000, interest := 0, principal := 120000 } := by
  have hsched := schedule_zeroBranch P n hP.le hn
  have hs10 : (computeMortgage 120000 0 ((10 : ℕ) : ℚ)).schedule =
      (List.range 10).map (zrowC 120000 10) :=
    schedule_zeroBranch 120000 10 (by norm_num) (by norm_num)
  refine ⟨payment_zero_eq P n, ?_, ?_, totals_zero_eq P n, ?_, ?_, ?_, ?_⟩
  · intro i hi hlt
    rw [get_eq_of_eq_map hsched i hi]
    refine ⟨rfl, ?_⟩
    simp only [zrowC]
    rw [if_neg (by omega)]
  · intro hi
    rw [get_eq_of_eq_map hsched (n - 1) hi]
    simp only [zrowC]
    rw [if_pos (by omega), Nat.cast_sub hn, Nat.cast_one]
  · rw [payment_zero_eq 120000 10]
    norm_num
  · intro row hrow
    rw [hs10] at hrow
    obtain ⟨j, hjmem, rfl⟩ := List.mem_map.mp hrow
    rw [List.mem_range] at hjmem
    refine ⟨rfl, ?_⟩
    simp only [zrowC]
    by_cases h : j + 1 = 10
    · have hj9 : j = 9 := by omega
      subst hj9
      rw [if_pos h]
      norm_num
    · rw [if_neg h]
      norm_num
  · intro hi
    rw [get_eq_of_eq_map hs10 9 hi]
    simp only [zrowC]
    norm_num
  · rw [totals_zero_eq 120000 10]
    simp only [Totals.mk.injEq]
    norm_num

theorem C2_zero_rate_branch_witness :
    (0 : ℚ) < 5000 ∧ (1 : ℕ) ≤ 4 ∧
    ((computeMortgage 5000 0 ((4 : ℕ) : ℚ)).payment = 5000 / ((4 : ℕ) : ℚ) ∧
    (∀ i, ∀ hi : i < (computeMortgage 5000 0 ((4 : ℕ) : ℚ)).schedule.length,
      i < 4 - 1 →
      ((computeMortgage 5000 0 ((4 : ℕ) : ℚ)).schedule.get ⟨i, hi⟩).interest =
        0 ∧
      ((computeMortgage 5000 0
          ((4 : ℕ) : ℚ)).schedule.get ⟨i, hi⟩).principal =
        5000 / ((4 : ℕ) : ℚ)) ∧
    (∀ hi : 4 - 1 < (computeMortgage 5000 0 ((4 : ℕ) : ℚ)).schedule.length,
      ((computeMortgage 5000 0
          ((4 : ℕ) : ℚ)).schedule.get ⟨4 - 1, hi⟩).principal =
        5000 - (((4 : ℕ) : ℚ) - 1) * (5000 / ((4 : ℕ) : ℚ))) ∧
    (computeMortgage 5000 0 ((4 : ℕ) : ℚ)).totals =
      { payment := 5000 / ((4 : ℕ) : ℚ) * ((4 : ℕ) : ℚ), interest := 0,
        principal := 5000 } ∧
    (computeMortgage 120000 0 ((10 : ℕ) : ℚ)).payment = 12000 ∧
    (∀ row ∈ (computeMortgage 120000 0 ((10 : ℕ) : ℚ)).schedule,
      row.interest = 0 ∧ row.principal = 12000) ∧
    (∀ hi : 9 < (computeMortgage 120000 0 ((10 : ℕ) : ℚ)).schedule.length,
      ((computeMortgage 120000 0
          ((10 : ℕ) : ℚ)).schedule.get ⟨9, hi⟩).endingBalance = 0) ∧
    (computeMortgage 120000 0 ((10 : ℕ) : ℚ)).totals =
      { payment := 120000, interest := 0, principal := 120000 }) :=
  ⟨by norm_num, by norm_num,
    C2_zero_rate_branch 5000 4 (by norm_num) (by norm_num)⟩

/-- C3: for principal > 0, rate ≥ 0 and an integer term n ≥ 1, the
schedule's ending balances are non-negative and non-increasing (the first
row's balance is at most the loan amount, matching endingBalance[0] =
loan), and the final row's ending balance is exactly 0. -/
theorem C3_balance_monotone (P rate : ℚ) (n : ℕ)
    (hP : 0 < P) (hrate : 0 ≤ rate) (hn : 1 ≤ n) :
    (∀ i,
      ∀ hi1 : i + 1 < (computeMortgage P rate ((n : ℕ) : ℚ)).schedule.length,
      ∀ hi0 : i < (computeMortgage P rate ((n : ℕ) : ℚ)).schedule.length,
      ((computeMortgage P rate
          ((n : ℕ) : ℚ)).schedule.get ⟨i + 1, hi1⟩).endingBalance ≤
        ((computeMortgage P rate
          ((n : ℕ) : ℚ)).schedule.get ⟨i, hi0⟩).endingBalance) ∧
    (∀ row ∈ (computeMortgage P rate ((n : ℕ) : ℚ)).schedule,
      0 ≤ row.endingBalance) ∧
    (∀ h0 : 0 < (computeMortgage P rate ((n : ℕ) : ℚ)).schedule.length,
      ((computeMortgage P rate
          ((n : ℕ) : ℚ)).schedule.get ⟨0, h0⟩).endingBalance ≤ P) ∧
    (∀ hl : n - 1 < (computeMortgage P rate ((n : ℕ) : ℚ)).schedule.length,
      ((computeMortgage P rate
          ((n : ℕ) : ℚ)).schedule.get ⟨n - 1, hl⟩).endingBalance = 0) := by
  have hn0 : ((n : ℚ)) ≠ 0 := by
    exact_mod_cast Nat.one_le_iff_ne_zero.mp hn
  have hdiv : 0 ≤ P / (n : ℚ) := by positivity
  have hmul : ((n : ℚ)) * (P / (n : ℚ)) = P := by field_simp
  rcases hrate.eq_or_lt with h0 | hpos
  · obtain rfl : rate = 0 := h0.symm
    have hsched := schedule_zeroBranch P n hP.le hn
    refine ⟨?_, ?_, ?_, ?_⟩
    · intro i hi1 hi0
      rw [get_eq_of_eq_map hsched (i + 1) hi1, get_eq_of_eq_map hsched i hi0]
      simp only [zrowC]
      push_cast
      linarith
    · intro row hrow
      rw [hsched] at hrow
      obtain ⟨j, hjmem, rfl⟩ := List.mem_map.mp hrow
      rw [List.mem_range] at hjmem
      have := zbal_nonneg hP.le hn (j := j + 1) (by omega)
      simp only [zrowC]
      push_cast at this ⊢
      linarith
    · intro h0
      rw [get_eq_of_eq_map hsched 0 h0]
      simp only [zrowC]
      push_cast
      linarith
    · intro hl
      rw [get_eq_of_eq_map hsched (n - 1) hl]
      simp only [zrowC]
      rw [Nat.cast_sub hn, Nat.cast_one]
      ring_nf
      ring_nf at hmul
      linarith
  · have hr : 0 < rate / 100 := by positivity
    have hsched := schedule_posBranch P rate n hP.le hpos hn
    refine ⟨?_, ?_, ?_, ?_⟩
    · intro i hi1 hi0
      rw [get_eq_of_eq_map hsched (i + 1) hi1, get_eq_of_eq_map hsched i hi0]
      simp only [rowC]
      exact balClosed_succ_le hP.le hr hn (i + 1)
    · intro row hrow
      rw [hsched] at hrow
      obtain ⟨j, hjmem, rfl⟩ := List.mem_map.mp hrow
      rw [List.mem_range] at hjmem
      simp only [rowC]
      exact balClosed_nonneg hP.le hr hn (by omega)
    · intro h0
      rw [get_eq_of_eq_map hsched 0 h0]
      simp only [rowC]
      have h1 := balClosed_succ_le hP.le hr hn 0
      rw [balClosed_zero hr hn] at h1
      exact h1
    · intro hl
      rw [get_eq_of_eq_map hsched (n - 1) hl]
      simp only [rowC]
      rw [Nat.sub_add_cancel hn, balClosed_last]

theorem C3_balance_monotone_witness :
    (0 : ℚ) < 200 ∧ (0 : ℚ) ≤ 6 ∧ (1 : ℕ) ≤ 3 ∧
    ((∀ i,
      ∀ hi1 : i + 1 < (computeMortgage 200 6 ((3 : ℕ) : ℚ)).schedule.length,
      ∀ hi0 : i < (computeMortgage 200 6 ((3 : ℕ) : ℚ)).schedule.length,
      ((computeMortgage 200 6
          ((3 : ℕ) : ℚ)).schedule.get ⟨i + 1, hi1⟩).endingBalance ≤
        ((computeMortgage 200 6
          ((3 : ℕ) : ℚ)).schedule.get ⟨i, hi0⟩).endingBalance) ∧
    (∀ row ∈ (computeMortgage 200 6 ((3 : ℕ) : ℚ)).schedule,
      0 ≤ row.endingBalance) ∧
    (∀ h0 : 0 < (computeMortgage 200 6 ((3 : ℕ) : ℚ)).schedule.length,
      ((computeMortgage 200 6
          ((3 : ℕ) : ℚ)).schedule.get ⟨0, h0⟩).endingBalance ≤ 200) ∧
    (∀ hl : 3 - 1 < (computeMortgage 200 6 ((3 : ℕ) : ℚ)).schedule.length,
      ((computeMortgage 200 6
          ((3 : ℕ) : ℚ)).schedule.get ⟨3 - 1, hl⟩).endingBalance = 0)) :=
  ⟨by norm_num, by norm_num, by norm_num,
    C3_balance_monotone 200 6 3 (by norm_num) (by norm_num) (by norm_num)⟩

lemma getD_map_range {α : Type} [Inhabited α] (f : ℕ → α) {n i : ℕ}
    (hi : i < n) : ((List.range n).map f).getD i default = f i := by
  have hlen : i < ((List.range n).map f).length := by simpa using hi
  rw [List.getD_eq_getElem _ _ hlen]
  simp

/-- C4: in the positive-rate branch, the final year's principal is
overridden to the balance before that year while its interest is still
computed from that same pre-clamp balance; every earlier year has
`principal = annualPayment - interest` and `interest = balance_before * r`. -/
theorem C4_final_year_clamp (P rate : ℚ) (n : ℕ)
    (hP : 0 < P) (hrate : 0 < rate) (hn : 1 ≤ n) :
    ∀ j, ∀ hj : j < (computeMortgage P rate ((n : ℕ) : ℚ)).schedule.length,
      ((computeMortgage P rate ((n : ℕ) : ℚ)).schedule.get ⟨j, hj⟩).interest =
        balBefore P (computeMortgage P rate ((n : ℕ) : ℚ)).schedule j *
          (rate / 100) ∧
      (j + 1 = n →
        ((computeMortgage P rate
            ((n : ℕ) : ℚ)).schedule.get ⟨j, hj⟩).principal =
          balBefore P (computeMortgage P rate ((n : ℕ) : ℚ)).schedule j) ∧
      (j + 1 ≠ n →
        ((computeMortgage P rate
            ((n : ℕ) : ℚ)).schedule.get ⟨j, hj⟩).principal =
          (computeMortgage P rate ((n : ℕ) : ℚ)).payment -
            ((computeMortgage P rate
              ((n : ℕ) : ℚ)).schedule.get ⟨j, hj⟩).interest) := by
  have hr : 0 < rate / 100 := by positivity
  have hsched := schedule_posBranch P rate n hP.le hrate hn
  intro j hj
  have hjn : j < n := by
    rw [hsched, List.length_map, List.length_range] at hj
    exact hj
  have hbb : balBefore P (computeMortgage P rate ((n : ℕ) : ℚ)).schedule j =
      balClosed P (rate / 100) n j := by
    rw [balBefore, hsched]
    by_cases hj0 : j = 0
    · rw [if_pos hj0, hj0, balClosed_zero hr hn]
    · rw [if_neg hj0, getD_map_range (rowC P (rate / 100) n) (by omega)]
      show balClosed P (rate / 100) n (j - 1 + 1) = _
      congr 1
      omega
  rw [get_eq_of_eq_map hsched j hj]
  refine ⟨by rw [hbb]; rfl, ?_, ?_⟩
  · intro hfin
    rw [hbb]
    simp only [rowC]
    rw [if_pos hfin]
  · intro hfin
    rw [payment_pos_eq P rate n (ne_of_gt hrate)]
    simp only [rowC]
    rw [if_neg hfin]

theorem C4_final_year_clamp_witness :
    (0 : ℚ) < 400 ∧ (0 : ℚ) < 8 ∧ (1 : ℕ) ≤ 2 ∧
    (∀ j, ∀ hj : j < (computeMortgage 400 8 ((2 : ℕ) : ℚ)).schedule.length,
      ((computeMortgage 400 8 ((2 : ℕ) : ℚ)).schedule.get ⟨j, hj⟩).interest =
        balBefore 400 (computeMortgage 400 8 ((2 : ℕ) : ℚ)).schedule j *
          (8 / 100) ∧
      (j + 1 = 2 →
        ((computeMortgage 400 8
            ((2 : ℕ) : ℚ)).schedule.get ⟨j, hj⟩).principal =
          balBefore 400 (computeMortgage 400 8 ((2 : ℕ) : ℚ)).schedule j) ∧
      (j + 1 ≠ 2 →
        ((computeMortgage 400 8
            ((2 : ℕ) : ℚ)).schedule.get ⟨j, hj⟩).principal =
          (computeMortgage 400 8 ((2 : ℕ) : ℚ)).payment -
            ((computeMortgage 400 8
              ((2 : ℕ) : ℚ)).schedule.get ⟨j, hj⟩).interest)) :=
  ⟨by norm_num, by norm_num, by norm_num,
    C4_final_year_clamp 400 8 2 (by norm_num) (by norm_num) (by norm_num)⟩

/-- C10 (implicit): in every schedule row except possibly the final one,
`payment = interest + principal` holds exactly, in both rate branches. -/
theorem C10_row_identity (P rate : ℚ) (n : ℕ)
    (hP : 0 < P) (hrate : 0 ≤ rate) (hn : 1 ≤ n) :
    ∀ j, ∀ hj : j < (computeMortgage P rate ((n : ℕ) : ℚ)).schedule.length,
      j + 1 ≠ n →
      ((computeMortgage P rate ((n : ℕ) : ℚ)).schedule.get ⟨j, hj⟩).payment =
        ((computeMortgage P rate
            ((n : ℕ) : ℚ)).schedule.get ⟨j, hj⟩).interest +
          ((computeMortgage P rate
            ((n : ℕ) : ℚ)).schedule.get ⟨j, hj⟩).principal := by
  intro j hj hfin
  rcases hrate.eq_or_lt with h0 | hpos
  · obtain rfl : rate = 0 := h0.symm
    have hsched := schedule_zeroBranch P n hP.le hn
    rw [get_eq_of_eq_map hsched j hj]
    simp only [zrowC]
    rw [if_neg hfin, zero_add]
  · have hsched := schedule_posBranch P rate n hP.le hpos hn
    rw [get_eq_of_eq_map hsched j hj]
    simp only [rowC]
    rw [if_neg hfin]
    ring

theorem C10_row_identity_witness :
    (0 : ℚ) < 900 ∧ (0 : ℚ) ≤ 4 ∧ (1 : ℕ) ≤ 3 ∧
    (∀ j, ∀ hj : j < (computeMortgage 900 4 ((3 : ℕ) : ℚ)).schedule.length,
      j + 1 ≠ 3 →
      ((computeMortgage 900 4 ((3 : ℕ) : ℚ)).schedule.get ⟨j, hj⟩).payment =
        ((computeMortgage 900 4
            ((3 : ℕ) : ℚ)).schedule.get ⟨j, hj⟩).interest +
          ((computeMortgage 900 4
            ((3 : ℕ) : ℚ)).schedule.get ⟨j, hj⟩).principal) :=
  ⟨by norm_num, by norm_num, by norm_num,
    C10_row_identity 900 4 3 (by norm_num) (by norm_num) (by norm_num)⟩

/-- C6: for every valid input and in both branches, the engine's totals
satisfy interest + principal = payment exactly over exact arithmetic
(hence within any floating-point tolerance), with totals.payment computed
as annualPayment * n. -/
theorem C6_conservation (P rate : ℚ) (n : ℕ)
    (hP : 0 < P) (hrate : 0 ≤ rate) (hn : 1 ≤ n) :
    (computeMortgage P rate ((n : ℕ) : ℚ)).totals.interest +
      (computeMortgage P rate ((n : ℕ) : ℚ)).totals.principal =
      (computeMortgage P rate ((n : ℕ) : ℚ)).totals.payment ∧
    (computeMortgage P rate ((n : ℕ) : ℚ)).totals.payment =
      (computeMortgage P rate ((n : ℕ) : ℚ)).payment * ((n : ℕ) : ℚ) := by
  have hn0 : ((n : ℚ)) ≠ 0 := by
    exact_mod_cast Nat.one_le_iff_ne_zero.mp hn
  rcases hrate.eq_or_lt with h0 | hpos
  · obtain rfl : rate = 0 := h0.symm
    rw [totals_zero_eq P n, payment_zero_eq P n]
    constructor
    · show (0 : ℚ) + P = P / (n : ℚ) * (n : ℚ)
      rw [zero_add, div_mul_cancel₀ P hn0]
    · rfl
  · have hr : 0 < rate / 100 := by positivity
    rw [totals_pos_eq P rate n hP.le hpos hn,
      payment_pos_eq P rate n (ne_of_gt hpos)]
    exact ⟨sumIP_pos hr hn, rfl⟩

theorem C6_conservation_witness :
    (0 : ℚ) < 750 ∧ (0 : ℚ) ≤ 3 ∧ (1 : ℕ) ≤ 4 ∧
    ((computeMortgage 750 3 ((4 : ℕ) : ℚ)).totals.interest +
      (computeMortgage 750 3 ((4 : ℕ) : ℚ)).totals.principal =
      (computeMortgage 750 3 ((4 : ℕ) : ℚ)).totals.payment ∧
    (computeMortgage 750 3 ((4 : ℕ) : ℚ)).totals.payment =
      (computeMortgage 750 3 ((4 : ℕ) : ℚ)).payment * ((4 : ℕ) : ℚ)) :=
  ⟨by norm_num, by norm_num, by norm_num,
    C6_conservation 750 3 4 (by norm_num) (by norm_num) (by norm_num)⟩

/-- C7: the returned totals.principal is the sum of the row principal
components and equals the original loan amount exactly over exact
arithmetic, in both branches. -/
theorem C7_principal_total (P rate : ℚ) (n : ℕ)
    (hP : 0 < P) (hrate : 0 ≤ rate) (hn : 1 ≤ n) :
    (computeMortgage P rate ((n : ℕ) : ℚ)).totals.principal =
      sumPrincipal (computeMortgage P rate ((n : ℕ) : ℚ)).schedule ∧
    (computeMortgage P rate ((n : ℕ) : ℚ)).totals.principal = P := by
  rcases hrate.eq_or_lt with h0 | hpos
  · obtain rfl : rate = 0 := h0.symm
    have hsched := schedule_zeroBranch P n hP.le hn
    rw [totals_zero_eq P n, hsched]
    exact ⟨(sumPrincipal_zero hn).symm, rfl⟩
  · have hr : 0 < rate / 100 := by positivity
    have hsched := schedule_posBranch P rate n hP.le hpos hn
    rw [totals_pos_eq P rate n hP.le hpos hn, hsched]
    exact ⟨rfl, sumPrincipal_pos hr hn⟩

theorem C7_principal_total_witness :
    (0 : ℚ) < 600 ∧ (0 : ℚ) ≤ 2 ∧ (1 : ℕ) ≤ 5 ∧
    ((computeMortgage 600 2 ((5 : ℕ) : ℚ)).totals.principal =
      sumPrincipal (computeMortgage 600 2 ((5 : ℕ) : ℚ)).schedule ∧
    (computeMortgage 600 2 ((5 : ℕ) : ℚ)).totals.principal = 600) :=
  ⟨by norm_num, by norm_num, by norm_num,
    C7_principal_total 600 2 5 (by norm_num) (by norm_num) (by norm_num)⟩

lemma get_congr {α : Type} {l l' : List α} (h : l = l') (i : ℕ)
    (hi : i < l.length) (hi' : i < l'.length) :
    l.get ⟨i, hi⟩ = l'.get ⟨i, hi'⟩ := by
  subst h
  rfl

lemma schedule_zero_any (P rate years : ℚ) (hrz : rate / 100 = 0) :
    (computeMortgage P rate years).schedule =
      zeroRows (P / ((jsRound years : ℤ) : ℚ)) (jsRound years).toNat 1
        (jsRound years).toNat P := by
  simp [computeMortgage, hrz]

lemma schedule_pos_any (P rate years : ℚ) (hrz : ¬ rate / 100 = 0) :
    (computeMortgage P rate years).schedule =
      posRows
        (P * (rate / 100 * (1 + rate / 100) ^ (jsRound years).toNat) /
          ((1 + rate / 100) ^ (jsRound years).toNat - 1))
        (rate / 100) (jsRound years).toNat 1 (jsRound years).toNat P := by
  simp [computeMortgage, hrz]

/-- C8: the term is rounded to the nearest integer (`Math.round`, which on
the nonnegative domain is round-half-away-from-zero and agrees with
Mathlib's `round`) before the loop, and the schedule then has exactly n
rows, 1-indexed in ascending order: `schedule[i].year = i + 1`. -/
theorem C8_row_count (P rate years : ℚ) (_h1 : 1 ≤ jsRound years) :
    jsRound years = round years ∧
    (computeMortgage P rate years).schedule.length = (jsRound years).toNat ∧
    ∀ i, ∀ hi : i < (computeMortgage P rate years).schedule.length,
      ((computeMortgage P rate years).schedule.get ⟨i, hi⟩).year = i + 1 := by
  have hlen : (computeMortgage P rate years).schedule.length =
      (jsRound years).toNat := by
    by_cases hrz : rate / 100 = 0
    · rw [schedule_zero_any P rate years hrz, zeroRows_length]
    · rw [schedule_pos_any P rate years hrz, posRows_length]
  refine ⟨jsRound_eq_round years, hlen, ?_⟩
  intro i hi
  by_cases hrz : rate / 100 = 0
  · have hs := schedule_zero_any P rate years hrz
    have hi' : i < (zeroRows (P / ((jsRound years : ℤ) : ℚ))
        (jsRound years).toNat 1 (jsRound years).toNat P).length := by
      rw [← hs]
      exact hi
    rw [get_congr hs i hi hi', zeroRows_year]
    omega
  · have hs := schedule_pos_any P rate years hrz
    have hi' : i < (posRows
        (P * (rate / 100 * (1 + rate / 100) ^ (jsRound years).toNat) /
          ((1 + rate / 100) ^ (jsRound years).toNat - 1))
        (rate / 100) (jsRound years).toNat 1 (jsRound years).toNat P).length := by
      rw [← hs]
      exact hi
    rw [get_congr hs i hi hi', posRows_year]
    omega

theorem C8_row_count_witness :
    1 ≤ jsRound ((7 : ℕ) : ℚ) ∧
    (jsRound ((7 : ℕ) : ℚ) = round ((7 : ℕ) : ℚ) ∧
    (computeMortgage 1234 9 ((7 : ℕ) : ℚ)).schedule.length =
      (jsRound ((7 : ℕ) : ℚ)).toNat ∧
    ∀ i, ∀ hi : i < (computeMortgage 1234 9 ((7 : ℕ) : ℚ)).schedule.length,
      ((computeMortgage 1234 9
          ((7 : ℕ) : ℚ)).schedule.get ⟨i, hi⟩).year = i + 1) :=
  ⟨by rw [jsRound_natCast]; norm_num,
    C8_row_count 1234 9 ((7 : ℕ) : ℚ) (by rw [jsRound_natCast]; norm_num)⟩

/-- C9: the engine is deterministic — it is a pure function of its three
scalar inputs, so equal inputs give equal results. -/
theorem C9_deterministic (P₁ rate₁ years₁ P₂ rate₂ years₂ : ℚ)
    (hP : P₁ = P₂) (hr : rate₁ = rate₂) (hy : years₁ = years₂) :
    computeMortgage P₁ rate₁ years₁ = computeMortgage P₂ rate₂ years₂ := by
  rw [hP, hr, hy]

theorem C9_deterministic_witness :
    (1000 : ℚ) = 1000 ∧ (5 : ℚ) = 5 ∧ (30 : ℚ) = 30 ∧
    computeMortgage 1000 5 30 = computeMortgage 1000 5 30 :=
  ⟨rfl, rfl, rfl, C9_deterministic 1000 5 30 1000 5 30 rfl rfl rfl⟩

lemma jsRound_zero : jsRound (0 : ℚ) = 0 := by
  rw [jsRound, zero_add, Int.floor_eq_zero_iff, Set.mem_Ico]
  constructor <;> norm_num

/-- C5 counterexample: called with termYears = 0 (violating the
termYears ≥ 1 precondition), `computeMortgage` does not signal any error —
it returns a normally-formed result whose schedule is empty, exactly the
"empty/nonsensical schedule" outcome the claim says is prevented. -/
theorem C5_counterexample_returns_result :
    (computeMortgage 1000 5 (0 : ℚ)).schedule = [] := by
  have h5 : ¬ ((5 : ℚ) / 100 = 0) := by norm_num
  rw [schedule_pos_any 1000 5 0 h5, jsRound_zero]
  rfl

/-- C5 (amended): the engine performs no input validation and has no
error channel; on inputs with a rounded term below 1 it silently returns
a degenerate result with an empty schedule, relying entirely on upstream
validation. -/
theorem C5_no_error_signalled (P rate years : ℚ) (h : jsRound years ≤ 0) :
    (computeMortgage P rate years).schedule = [] := by
  have ht : (jsRound years).toNat = 0 := Int.toNat_of_nonpos h
  by_cases hrz : rate / 100 = 0
  · rw [schedule_zero_any P rate years hrz, ht]
    rfl
  · rw [schedule_pos_any P rate years hrz, ht]
    rfl

theorem C5_no_error_signalled_witness :
    jsRound (0 : ℚ) ≤ 0 ∧ (computeMortgage 2000 7 (0 : ℚ)).schedule = [] :=
  ⟨jsRound_zero.le, C5_no_error_signalled 2000 7 0 jsRound_zero.le⟩

end Mortgage
